/-
  Verification of the crypto notification bot (`main.py`) against its
  natural-language specification.

  The embedding is shallow: every definition below is translated directly
  from the Python source.  Prices are modelled as rationals (ℚ); pandas
  NaN entries are modelled as `none : Option ℚ`; a Python function that
  may raise is modelled with `Except`, and a function that catches every
  exception and substitutes a default is modelled as a total function.
  Timestamps, where needed, are microseconds since an hour-aligned epoch
  (America/Bogota is a fixed whole-hour UTC offset, so civil hour
  boundaries coincide with absolute hour boundaries).
-/
import Mathlib

namespace CryptoBot

/-! ## Scheduling loop: active-window check (`loop_crypto`, main.py line 299)

The Python test is `6 <= now.hour < 21 or (now.hour == 21 and now.minute <= 30)`.
It reads only the hour and minute fields of the civil time. -/

/-- The in-window check of `loop_crypto` (main.py line 299), taking the
civil hour and minute in America/Bogota. -/
def in_window (hour minute : ℕ) : Bool :=
  (6 ≤ hour && hour < 21) || (hour == 21 && minute ≤ 30)

/-- Membership predicate of the window as the spec states it: civil times
from 06:00:00 through 21:30:00 inclusive, measured in seconds since
midnight.  (Spec-side definition, for comparison with `in_window`.) -/
def spec_window (hour minute second : ℕ) : Bool :=
  6 * 3600 ≤ hour * 3600 + minute * 60 + second &&
    hour * 3600 + minute * 60 + second ≤ 21 * 3600 + 30 * 60

/-! ## Scheduling loop: next-wake computation (`loop_crypto`, main.py lines 307–312)

`next_run = (now + timedelta(hours=1)).replace(minute=0, second=5, microsecond=0)`;
`wait_seconds = (next_run - now).total_seconds()`; `wait_seconds = max(wait_seconds, 60)`.
Times are microseconds since an hour-aligned epoch; `replace(minute=0,
second=5, microsecond=0)` truncates to the enclosing civil hour and adds
5 seconds, which over a fixed whole-hour UTC offset is truncation to the
absolute hour boundary plus 5 seconds. -/

def usPerHour : ℕ := 3600000000

/-- `(now + timedelta(hours=1)).replace(minute=0, second=5, microsecond=0)`
(main.py line 308), in microseconds since an hour-aligned epoch. -/
def next_run (t : ℕ) : ℕ :=
  ((t + usPerHour) / usPerHour) * usPerHour + 5000000

/-- `(next_run - now).total_seconds()` (main.py line 309), in microseconds,
before the floor is applied. -/
def wait_us (t : ℕ) : ℤ :=
  (next_run t : ℤ) - (t : ℤ)

/-- `wait_seconds = max(wait_seconds, 60)` (main.py line 311), in
microseconds. -/
def wait_clamped (t : ℕ) : ℤ :=
  max (wait_us t) 60000000

/-! ## Market data client (`get_coinbase_price`, main.py lines 45–65)

The primary (Coinbase) outcome is modelled as `Except Unit (Option ℚ)`:
`.error ()` is any exception inside the first `try` (network error,
timeout, unparsable price string); `.ok none` is a response whose JSON is
not a dict carrying a `"price"` field (including a body that fails JSON
parsing, which `safe_json` turns into `{}`); `.ok (some p)` is a
well-formed response with price `p`.  The fallback (CoinGecko) outcome is
`Except Unit ℚ`: any failure there, including a missing field, raises
inside the second `try` and is `.error ()`. -/

/-- `get_coinbase_price` (main.py lines 45–65): primary with CoinGecko
fallback; both `try` blocks catch every exception, so the function is
total and returns `none` only when both sources fail. -/
def get_coinbase_price (primary : Except Unit (Option ℚ))
    (fallback : Except Unit ℚ) : Option ℚ :=
  match primary with
  | .ok (some p) => some p
  | _ =>
    match fallback with
    | .ok p => some p
    | .error _ => none

/-! ## Order-book client (`get_coinbase_orderbook`, main.py lines 67–83)

The response is `Except Unit (Option (List (ℚ × ℚ)) × Option (List (ℚ × ℚ)))`:
`.error ()` is any exception in the `try` (network error, timeout,
unparsable level entries); an `.ok` carries the `"bids"` and `"asks"`
entries, `none` when the key is absent from the dict (then the `if` guard
fails).  Indexing `[0]` into an empty level list raises `IndexError`,
which the `except` catches, so those cases also fall through to the
all-zero snapshot. -/

/-- `SEND_ORDERBOOK_FALLBACK_ZERO` (main.py line 31). -/
def SEND_ORDERBOOK_FALLBACK_ZERO : ℚ × ℚ × ℚ × ℚ := (0, 0, 0, 0)

/-- `get_coinbase_orderbook` (main.py lines 67–83): returns the
first-level best bid/ask on a well-formed response and the all-zero
snapshot on any failure. -/
def get_coinbase_orderbook
    (resp : Except Unit (Option (List (ℚ × ℚ)) × Option (List (ℚ × ℚ)))) :
    ℚ × ℚ × ℚ × ℚ :=
  match resp with
  | .ok (some ((bp, bq) :: _), some ((ap, aq) :: _)) => (bp, bq, ap, aq)
  | _ => SEND_ORDERBOOK_FALLBACK_ZERO

/-! ## History & indicator engine (`calc_rsi` and the SMA of `analyze_coin`,
main.py lines 103–111 and 200–208)

A pandas Series over the price column is a `List ℚ`; a series that may
hold NaN entries is a `List (Option ℚ)` with `none` for NaN.
`Series.diff()` puts NaN at index 0 and the consecutive difference
elsewhere; `rolling(p).mean()` (default `min_periods = p`) is NaN until
the window is full and NaN whenever the window contains a NaN.  Float
division of the two rolling means follows IEEE semantics on the values
that actually occur (both operands are ≥ 0 here): `u / 0` with `u > 0` is
`+inf`, making `100 - 100 / (1 + rs) = 100`, and `0 / 0` is NaN, which
propagates to the final RSI. -/

/-- The consecutive differences `xs[i+1] - xs[i]` of a series. -/
def deltas : List ℚ → List ℚ
  | x :: y :: t => (y - x) :: deltas (y :: t)
  | _ => []

/-- `Series.diff()` (main.py line 104): NaN at index 0, consecutive
differences after it. -/
def diff (xs : List ℚ) : List (Option ℚ) :=
  match xs with
  | [] => []
  | _ :: _ => none :: (deltas xs).map some

/-- `delta.clip(lower=0)` (main.py line 105), per entry. -/
def clip_lower0 (d : ℚ) : ℚ := max d 0

/-- `-delta.clip(upper=0)` (main.py line 106), per entry:
`-(min d 0) = max (-d) 0`. -/
def clip_upper0_neg (d : ℚ) : ℚ := max (-d) 0

/-- Entry `i` of `Series.rolling(p).mean()`: the mean of entries
`i-p+1 .. i`, NaN while the window is not yet full (`i + 1 < p`) and NaN
when the window contains a NaN. -/
def rollingAt (p : ℕ) (ys : List (Option ℚ)) (i : ℕ) : Option ℚ :=
  if i + 1 < p then none
  else
    let w := (ys.take (i + 1)).drop (i + 1 - p)
    if w.all Option.isSome then
      some ((w.map (fun o => o.getD 0)).sum / (p : ℚ))
    else none

/-- `Series.rolling(p).mean()` (main.py lines 107–108 and 202). -/
def rollingMean (p : ℕ) (ys : List (Option ℚ)) : List (Option ℚ) :=
  (List.range ys.length).map (rollingAt p ys)

/-- `rs = roll_up / roll_down; rsi = 100 - (100 / (1 + rs))`
(main.py lines 109–110) at one index, with IEEE float semantics for the
division: NaN operands propagate, `u / 0 = +inf` for `u ≠ 0` saturates
the RSI at 100, and `0 / 0` is NaN. -/
def rsi_point (ru rd : Option ℚ) : Option ℚ :=
  match ru, rd with
  | some u, some d =>
    if d = 0 then
      if u = 0 then none else some 100
    else some (100 - 100 / (1 + u / d))
  | _, _ => none

/-- `calc_rsi` (main.py lines 103–111). -/
def calc_rsi (series : List ℚ) (period : ℕ) : List (Option ℚ) :=
  let roll_up := rollingMean period ((diff series).map (Option.map clip_lower0))
  let roll_down := rollingMean period ((diff series).map (Option.map clip_upper0_neg))
  (List.range series.length).map fun i =>
    rsi_point (roll_up.getD i none) (roll_down.getD i none)

/-- `df["SMA20"].iloc[-1]` converted to `None` when NaN (main.py
lines 202 and 205); for the empty frame `analyze_coin` takes the `else`
branch (line 208) and the value is likewise `None`, which coincides with
`getLast?` of the empty list. -/
def sma_val (xs : List ℚ) : Option ℚ :=
  ((rollingMean 20 (xs.map some)).getLast?).join

/-- `df["RSI14"].iloc[-1]` converted to `None` when NaN (main.py
lines 203 and 206), `None` for the empty frame (line 208). -/
def rsi_val (xs : List ℚ) : Option ℚ :=
  ((calc_rsi xs 14).getLast?).join

/-! ## Per-instrument isolation (`analyze_coin` / `loop_crypto`, main.py lines 188–302)

The whole body of `analyze_coin` sits inside one `try`/`except` that logs
and swallows any exception; the `for coin in [...]` loop of `loop_crypto`
calls it for each tracked instrument in order with no further guard.  The
pipeline body (all fetches, the analysis, and the sends) is abstracted as
a fallible effect `pipeline : String → Except String Unit`. -/

/-- Outcome of one `analyze_coin` call: either the report was sent, or an
exception was caught at the per-instrument boundary and logged
(main.py lines 283–284). -/
inductive CoinOutcome where
  | sent : CoinOutcome
  | errorLogged (msg : String) : CoinOutcome
deriving DecidableEq, Repr

/-- `analyze_coin` (main.py lines 188–284) with its pipeline body
abstracted: the surrounding `try`/`except` makes it total. -/
def analyze_coin (pipeline : String → Except String Unit)
    (coin : String) : CoinOutcome :=
  match pipeline coin with
  | .ok _ => .sent
  | .error e => .errorLogged e

/-- The fixed instrument list of `loop_crypto` (main.py line 301). -/
def tracked_coins : List String := ["bitcoin", "ethereum", "ripple"]

/-- One in-window pass of `loop_crypto`'s `for` loop (main.py
lines 301–302). -/
def run_cycle (pipeline : String → Except String Unit) : List CoinOutcome :=
  go tracked_coins
where
  go : List String → List CoinOutcome
    | [] => []
    | c :: rest => analyze_coin pipeline c :: go rest

/-- Successive in-window cycles of the loop; the pipeline behaviour may
differ from cycle to cycle (`pipelines k` is cycle `k`'s behaviour). -/
def run_cycles (pipelines : ℕ → String → Except String Unit) : ℕ → List (List CoinOutcome)
  | 0 => []
  | n + 1 => run_cycles pipelines n ++ [run_cycle (pipelines n)]

/-! ## Suggested levels (`analyze_coin`, main.py lines 210–219)

`buy_price = round(min24 * 1.02, 2)` and `sell_price = round(max24 * 0.98, 2)`
where `min24`/`max24` are the min/max of the price column; both are `None`
when the frame is empty (the pandas min/max of an empty column is NaN and
`pd.notna` fails).  Python's `round` rounds half to even; the float
literals `1.02` and `0.98` are modelled as the rationals they denote. -/

/-- Python's banker's rounding of a rational to the nearest integer:
round half to even. -/
def round_half_even (s : ℚ) : ℤ :=
  if s - ⌊s⌋ < 1 / 2 then ⌊s⌋
  else if 1 / 2 < s - ⌊s⌋ then ⌊s⌋ + 1
  else if ⌊s⌋ % 2 = 0 then ⌊s⌋ else ⌊s⌋ + 1

/-- Python `round(x, 2)`: scale by 100, round half to even, scale back. -/
def round2 (q : ℚ) : ℚ := (round_half_even (q * 100) : ℚ) / 100

/-- `df["price"].min()` (main.py line 214): NaN (here `none`) on an empty
column, else the least entry. -/
def series_min : List ℚ → Option ℚ
  | [] => none
  | x :: xs => some (xs.foldl min x)

/-- `df["price"].max()` (main.py line 215). -/
def series_max : List ℚ → Option ℚ
  | [] => none
  | x :: xs => some (xs.foldl max x)

/-- `buy_price = round(min24 * 1.02, 2) if pd.notna(min24) else None`
(main.py line 216). -/
def buy_price (xs : List ℚ) : Option ℚ :=
  (series_min xs).map (fun m => round2 (m * (102 / 100)))

/-- `sell_price = round(max24 * 0.98, 2) if pd.notna(max24) else None`
(main.py line 217). -/
def sell_price (xs : List ℚ) : Option ℚ :=
  (series_max xs).map (fun m => round2 (m * (98 / 100)))

/-! ## Message builder (`analyze_coin`, main.py lines 228–270)

The message is modelled as the list of its lines; each line constructor
carries the numeric values interpolated into it.  The Python format spec
applied to each interpolated currency value is recorded by
`currency_fmts`: `commaTwoDec` for an `f"... {v:,.2f}"` interpolation
(thousands separators, exactly two decimals) and `commaOnly` for an
`f"... {v:,}"` interpolation (thousands separators, default `repr`
decimals).  Python truthiness of a float is `≠ 0`, and of an optional
it is "present and `≠ 0`". -/

/-- Python truthiness of a float. -/
def truthyF (q : ℚ) : Bool := q != 0

/-- Python truthiness of an optional float (`None` is falsy, `0.0` is
falsy). -/
def truthyO : Option ℚ → Bool
  | none => false
  | some q => truthyF q

/-- One line of the delivered message (main.py lines 242–268), with the
interpolated numeric values.  The RSI interpretation line keeps only the
interpolated RSI value; its three Spanish captions differ only in fixed
text. -/
inductive MsgLine where
  | header (label : String)
  | timeStamp
  | blank
  | priceLine (p : ℚ)
  | priceND
  | bidLine (bp bq : ℚ)
  | askLine (ap aq : ℚ)
  | bidAskND
  | suggestLine (b s : ℚ)
  | suggestND
  | smaLine (above : Bool) (sma : ℚ)
  | smaND
  | rsiLine (v : ℚ)
  | rsiND
  | newsLine (s : String)
  | disclaimer
deriving DecidableEq

/-- `sma_text` (main.py lines 237–239): placeholder unless both the SMA
and the current price are present (`is not None`). -/
def sma_text (smaVal priceVal : Option ℚ) : MsgLine :=
  match smaVal, priceVal with
  | some s, some p => .smaLine (decide (p > s)) s
  | _, _ => .smaND

/-- `rsi_text` (main.py lines 228–235): placeholder when the RSI is
absent. -/
def rsi_text : Option ℚ → MsgLine
  | some v => .rsiLine v
  | none => .rsiND

/-- The inputs of the message-building section of `analyze_coin`. -/
structure Report where
  label : String
  price : Option ℚ
  bid_price : ℚ
  bid_qty : ℚ
  ask_price : ℚ
  ask_qty : ℚ
  buy_price : Option ℚ
  sell_price : Option ℚ
  sma_val : Option ℚ
  rsi_val : Option ℚ
  news : String

/-- The message lines built by `analyze_coin` (main.py lines 242–268):
`if bid_price and ask_price and bid_price > 0 and ask_price > 0` guards
the bid/ask lines, `if buy_price and sell_price` guards the suggestion
line (Python truthiness, so a present-but-zero value takes the
placeholder branch). -/
def build_lines (r : Report) : List MsgLine :=
  [.header r.label, .timeStamp, .blank]
  ++ (match r.price with
      | some p => [.priceLine p]
      | none => [.priceND])
  ++ (if truthyF r.bid_price && truthyF r.ask_price &&
        decide (r.bid_price > 0) && decide (r.ask_price > 0) then
        [.bidLine r.bid_price r.bid_qty, .askLine r.ask_price r.ask_qty]
      else [.bidAskND])
  ++ (if truthyO r.buy_price && truthyO r.sell_price then
        [.suggestLine (r.buy_price.getD 0) (r.sell_price.getD 0)]
      else [.suggestND])
  ++ [sma_text r.sma_val r.price, rsi_text r.rsi_val, .blank,
      .newsLine r.news, .blank, .disclaimer]

/-- The Python string-format spec applied to a currency value. -/
inductive NumFmt where
  | commaTwoDec
  | commaOnly
deriving DecidableEq

/-- The format specs of the currency values interpolated into one line,
read off the f-strings of main.py lines 248, 253, 254, 259 and 239: all
`{v:,.2f}` except the suggestion line's `{buy_price:,}` and
`{sell_price:,}`.  Quantities (`bid_qty`, `ask_qty`) and the RSI are not
currency values. -/
def currency_fmts : MsgLine → List NumFmt
  | .priceLine _ => [.commaTwoDec]
  | .bidLine _ _ => [.commaTwoDec]
  | .askLine _ _ => [.commaTwoDec]
  | .suggestLine _ _ => [.commaOnly, .commaOnly]
  | .smaLine _ _ => [.commaTwoDec]
  | _ => []

/-- All currency-value format specs of the delivered message, in order. -/
def msg_currency_fmts (r : Report) : List NumFmt :=
  (build_lines r).flatMap currency_fmts

lemma run_cycle_go_eq (pipeline : String → Except String Unit) :
    ∀ cs : List String, run_cycle.go pipeline cs = cs.map (analyze_coin pipeline) := by
  intro cs
  induction cs with
  | nil => rfl
  | cons c rest ih => simp [run_cycle.go, ih]

lemma run_cycle_eq_map (pipeline : String → Except String Unit) :
    run_cycle pipeline = tracked_coins.map (analyze_coin pipeline) :=
  run_cycle_go_eq pipeline tracked_coins

lemma deltas_length (xs : List ℚ) : (deltas xs).length = xs.length - 1 := by
  induction xs with
  | nil => rfl
  | cons x t ih =>
    cases t with
    | nil => rfl
    | cons y t' =>
      simp only [deltas, List.length_cons] at ih ⊢
      omega

lemma diff_length (xs : List ℚ) : (diff xs).length = xs.length := by
  cases xs with
  | nil => rfl
  | cons x t =>
    simp [diff, deltas_length]

lemma getLast?_range_map {α : Type} (f : ℕ → α) (n : ℕ) (h : 0 < n) :
    ((List.range n).map f).getLast? = some (f (n - 1)) := by
  rw [List.getLast?_eq_getElem?]
  simp only [List.length_map, List.length_range]
  rw [List.getElem?_map, List.getElem?_range (by omega : n - 1 < n)]
  rfl

lemma getD_range_map {α : Type} (g : ℕ → α) (n i : ℕ) (h : i < n) (d : α) :
    ((List.range n).map g).getD i d = g i := by
  rw [List.getD_eq_getElem?_getD, List.getElem?_map,
    List.getElem?_range h]
  rfl

lemma join_some (v : Option ℚ) : (some v).join = v := rfl

lemma rollingAt_map_some (p : ℕ) (xs : List ℚ) (h : 0 < xs.length) :
    rollingAt p (xs.map some) (xs.length - 1) =
      if xs.length < p then none
      else some ((xs.drop (xs.length - p)).sum / (p : ℚ)) := by
  have h1 : xs.length - 1 + 1 = xs.length := by omega
  simp only [rollingAt, h1]
  split
  · rfl
  · have htake : (xs.map some).take xs.length = xs.map some := by
      rw [← List.length_map xs some]
      exact List.take_length _
    rw [htake, ← List.map_drop]
    have hall : ((xs.drop (xs.length - p)).map some).all Option.isSome = true := by
      rw [List.all_eq_true]
      intro x hx
      rcases List.mem_map.mp hx with ⟨y, _, rfl⟩
      rfl
    rw [if_pos hall, List.map_map]
    have hcomp : ((fun o : Option ℚ => o.getD 0) ∘ some) = fun q : ℚ => q := by
      funext q
      rfl
    rw [hcomp, List.map_id']

lemma rollingAt_diff_last (f : ℚ → ℚ) (xs : List ℚ) (h : 15 ≤ xs.length) :
    rollingAt 14 ((diff xs).map (Option.map f)) (xs.length - 1) =
      some ((((deltas xs).drop (xs.length - 15)).map f).sum / 14) := by
  rcases xs with _ | ⟨x, t⟩
  · simp at h
  · have hlen : (x :: t).length = t.length + 1 := by simp
    have hdl : (deltas (x :: t)).length = t.length := by
      rw [deltas_length]; simp
    simp only [diff, List.map_cons, List.map_map, Option.map_none']
    have h1 : (x :: t).length - 1 + 1 = (x :: t).length := by simp
    simp only [rollingAt, h1]
    rw [if_neg (by simp at h ⊢; omega)]
    have htake :
        (none :: (deltas (x :: t)).map (Option.map f ∘ some)).take (x :: t).length =
          none :: (deltas (x :: t)).map (Option.map f ∘ some) := by
      have hl : (none :: (deltas (x :: t)).map (Option.map f ∘ some)).length =
          (x :: t).length := by
        simp [hdl]
      rw [← hl]
      exact List.take_length _
    rw [htake]
    have hsub : (x :: t).length - 14 = ((x :: t).length - 15) + 1 := by
      simp at h ⊢; omega
    rw [hsub, List.drop_succ_cons, ← List.map_drop]
    have hall :
        (((deltas (x :: t)).drop ((x :: t).length - 15)).map
          (Option.map f ∘ some)).all Option.isSome = true := by
      rw [List.all_eq_true]
      intro x hx
      rcases List.mem_map.mp hx with ⟨d, _, rfl⟩
      rfl
    rw [if_pos hall, List.map_map]
    have hcomp : ((fun o : Option ℚ => o.getD 0) ∘ (Option.map f ∘ some)) = f := by
      funext d
      rfl
    rw [hcomp]
    norm_num

lemma rsi_point_none_left (rd : Option ℚ) : rsi_point none rd = none := by
  cases rd <;> rfl

lemma up_down_length (f : ℚ → ℚ) (xs : List ℚ) :
    ((diff xs).map (Option.map f)).length = xs.length := by
  rw [List.length_map, diff_length]

lemma rsi_val_short (xs : List ℚ) (h : xs.length < 15) : rsi_val xs = none := by
  rcases xs with _ | ⟨x, t⟩
  · simp [rsi_val, calc_rsi]
  · have h0 : 0 < (x :: t).length := by simp
    unfold rsi_val calc_rsi
    rw [getLast?_range_map _ _ h0, join_some]
    unfold rollingMean
    rw [up_down_length, up_down_length, getD_range_map _ _ _ (by omega),
      getD_range_map _ _ _ (by omega)]
    have hup : rollingAt 14 ((diff (x :: t)).map (Option.map clip_lower0))
        ((x :: t).length - 1) = none := by
      by_cases hc : (x :: t).length < 14
      · unfold rollingAt
        rw [if_pos (by omega)]
      · have h14 : (x :: t).length = 14 := by simp at h hc ⊢; omega
        have h1 : (x :: t).length - 1 + 1 = (x :: t).length := by simp
        simp only [rollingAt, h1]
        rw [if_neg (by omega)]
        have hsub : (x :: t).length - 14 = 0 := by omega
        have htake : ((diff (x :: t)).map (Option.map clip_lower0)).take
            ((x :: t).length) = (diff (x :: t)).map (Option.map clip_lower0) := by
          rw [← up_down_length clip_lower0 (x :: t)]
          exact List.take_length _
        rw [htake, hsub, List.drop_zero]
        have : ((diff (x :: t)).map (Option.map clip_lower0)).all
            Option.isSome = false := by
          simp [diff]
        rw [if_neg (by simp [this])]
    rw [hup, rsi_point_none_left]

lemma rsi_val_long (xs : List ℚ) (h : 15 ≤ xs.length) :
    rsi_val xs = rsi_point
      (some ((((deltas xs).drop (xs.length - 15)).map clip_lower0).sum / 14))
      (some ((((deltas xs).drop (xs.length - 15)).map clip_upper0_neg).sum / 14)) := by
  have h0 : 0 < xs.length := by omega
  unfold rsi_val calc_rsi
  rw [getLast?_range_map _ _ h0, join_some]
  unfold rollingMean
  rw [up_down_length, up_down_length, getD_range_map _ _ _ (by omega),
    getD_range_map _ _ _ (by omega)]
  rw [rollingAt_diff_last _ _ h, rollingAt_diff_last _ _ h]

lemma sum_nonneg_eq_zero_iff (l : List ℚ) (h : ∀ x ∈ l, 0 ≤ x) :
    l.sum = 0 ↔ ∀ x ∈ l, x = 0 := by
  induction l with
  | nil => simp
  | cons a t ih =>
    have ha : 0 ≤ a := h a (List.mem_cons_self a t)
    have ht : ∀ x ∈ t, 0 ≤ x := fun x hx => h x (List.mem_cons_of_mem a hx)
    have hts : 0 ≤ t.sum := List.sum_nonneg ht
    simp only [List.sum_cons, List.mem_cons]
    constructor
    · intro h0
      have h1 : a = 0 := by linarith
      have h2 : t.sum = 0 := by linarith
      intro x hx
      rcases hx with rfl | hx
      · exact h1
      · exact (ih ht).mp h2 x hx
    · intro hall
      rw [hall a (Or.inl rfl), (ih ht).mpr fun x hx => hall x (Or.inr hx)]
      ring

lemma clip_lower0_nonneg (d : ℚ) : 0 ≤ clip_lower0 d := le_max_right _ _

lemma clip_upper0_neg_nonneg (d : ℚ) : 0 ≤ clip_upper0_neg d := le_max_right _ _

lemma clip_lower0_eq_zero_iff (d : ℚ) : clip_lower0 d = 0 ↔ d ≤ 0 := by
  unfold clip_lower0
  exact max_eq_right_iff

lemma clip_upper0_neg_eq_zero_iff (d : ℚ) : clip_upper0_neg d = 0 ↔ 0 ≤ d := by
  unfold clip_upper0_neg
  rw [max_eq_right_iff]
  simp

lemma clip_sum_eq_zero_iff (f : ℚ → ℚ) (hf : ∀ d, 0 ≤ f d) (l : List ℚ) :
    ((l.map f).sum / 14 = 0) ↔ ∀ d ∈ l, f d = 0 := by
  rw [div_eq_zero_iff]
  have h14 : (14 : ℚ) ≠ 0 := by norm_num
  simp only [h14, or_false]
  have hnn : ∀ x ∈ l.map f, 0 ≤ x := by
    intro x hx
    rcases List.mem_map.mp hx with ⟨d, _, rfl⟩
    exact hf d
  rw [sum_nonneg_eq_zero_iff _ hnn]
  constructor
  · intro hh d hd
    exact hh (f d) (List.mem_map_of_mem f hd)
  · intro hh x hx
    rcases List.mem_map.mp hx with ⟨d, hd, rfl⟩
    exact hh d hd

/-! ### Theorems for C1–C4, C9 -/

/-- C1: per-instrument isolation.  Whatever the pipeline does — including
raising on every instrument of every cycle — each in-window cycle
produces exactly one outcome per tracked instrument, the `i`-th outcome
is `analyze_coin` applied to the `i`-th instrument (an error on an
earlier instrument never skips a later one, since `analyze_coin` catches
every pipeline error at the per-instrument boundary and logs it), and `n`
cycles always run all `n` cycles to completion. -/
theorem analyze_isolation
    (pipelines : ℕ → String → Except String Unit) (n : ℕ) :
    (∀ k, (run_cycle (pipelines k)).length = tracked_coins.length) ∧
    (∀ k i (h : i < tracked_coins.length),
      (run_cycle (pipelines k))[i]? =
        some (analyze_coin (pipelines k) (tracked_coins.get ⟨i, h⟩))) ∧
    (run_cycles pipelines n).length = n ∧
    (∀ cyc ∈ run_cycles pipelines n, cyc.length = tracked_coins.length) := by
  refine ⟨fun k => by simp [run_cycle_eq_map], fun k i h => ?_, ?_, ?_⟩
  · rw [run_cycle_eq_map]
    rw [List.getElem?_map]
    rw [List.getElem?_eq_getElem h]
    simp
  · induction n with
    | zero => rfl
    | succ m ih => simp [run_cycles, ih]
  · intro cyc hcyc
    induction n with
    | zero => simp [run_cycles] at hcyc
    | succ m ih =>
      simp only [run_cycles, List.mem_append, List.mem_singleton] at hcyc
      rcases hcyc with h | h
      · exact ih h
      · rw [h, run_cycle_eq_map]; simp

/-- C1 witness: with a pipeline that raises on every instrument, the
second instrument of the cycle is still processed and its error is
logged. -/
theorem analyze_isolation_witness :
    (run_cycle (fun _ => Except.error "boom"))[1]? =
      some (analyze_coin (fun _ => Except.error "boom")
        (tracked_coins.get ⟨1, by decide⟩)) :=
  (analyze_isolation (fun _ _ => Except.error "boom") 2).2.1 0 1 (by decide)

/-- C2 counterexample: the Python check reads only hour and minute, so at
21:30:59 it is still in window, while the claim places the close at
21:30:00 and calls 21:30:59 out of window. -/
theorem in_window_2130_59_counterexample :
    in_window 21 30 = true ∧ spec_window 21 30 59 = false := by
  constructor <;> rfl

/-- C2 (amended): the window check accepts exactly the civil times with
hour in [6,21), or hour 21 and minute ≤ 30 — that is, 06:00:00 through
21:30:59 inclusive (the check ignores seconds); 05:59:59 and 21:31:00 are
out of window. -/
theorem in_window_characterisation (h m s : ℕ)
    (hm : m < 60) (hs : s < 60) :
    in_window h m = true ↔
      6 * 3600 ≤ h * 3600 + m * 60 + s ∧
        h * 3600 + m * 60 + s < 21 * 3600 + 31 * 60 := by
  simp only [in_window, Bool.or_eq_true, Bool.and_eq_true, decide_eq_true_eq,
    beq_iff_eq]
  omega

/-- C2 amended witness: 06:00:00 and 21:30:59 are in window. -/
theorem in_window_characterisation_witness :
    (in_window 6 0 = true ↔
      6 * 3600 ≤ 6 * 3600 + 0 * 60 + 0 ∧
        6 * 3600 + 0 * 60 + 0 < 21 * 3600 + 31 * 60) ∧
    (in_window 21 30 = true ↔
      6 * 3600 ≤ 21 * 3600 + 30 * 60 + 59 ∧
        21 * 3600 + 30 * 60 + 59 < 21 * 3600 + 31 * 60) :=
  ⟨in_window_characterisation 6 0 0 (by decide) (by decide),
   in_window_characterisation 21 30 59 (by decide) (by decide)⟩

/-- C3: the next wake time is the hour boundary strictly after `t`'s hour
start, plus the 5-second offset; it lies strictly after `t` and at most
one hour and five seconds after it; the pre-clamp wait is therefore
positive, and the clamped wait is never below 60 seconds. -/
theorem sleep_floor (t : ℕ) :
    next_run t = (t / usPerHour) * usPerHour + usPerHour + 5000000 ∧
    (t : ℤ) < next_run t ∧
    next_run t ≤ t + usPerHour + 5000000 ∧
    0 < wait_us t ∧
    60000000 ≤ wait_clamped t := by
  refine ⟨?_, ?_, ?_, ?_, ?_⟩
  · simp only [next_run, usPerHour]
    omega
  · simp only [next_run, usPerHour]
    omega
  · simp only [next_run, usPerHour]
    omega
  · simp only [wait_us, next_run, usPerHour]
    omega
  · rw [wait_clamped]
    exact le_max_right _ _

/-- C4: the price fetch never raises (it is a total function into
`Option ℚ`); a well-formed primary response wins; any primary failure —
exception or a dict without the price field — defers to the fallback;
when both fail the result is `none`. -/
theorem price_fallback_chain :
    (∀ (fb : Except Unit ℚ) (q : ℚ),
      get_coinbase_price (.ok (some q)) fb = some q) ∧
    (∀ fb : Except Unit ℚ, get_coinbase_price (.ok none) fb = fb.toOption) ∧
    (∀ fb : Except Unit ℚ, get_coinbase_price (.error ()) fb = fb.toOption) ∧
    (∀ p : ℚ, get_coinbase_price (.ok none) (.ok p) = some p) ∧
    (∀ p : ℚ, get_coinbase_price (.error ()) (.ok p) = some p) ∧
    get_coinbase_price (.ok none) (.error ()) = none ∧
    get_coinbase_price (.error ()) (.error ()) = none := by
  refine ⟨fun fb q => rfl, fun fb => ?_, fun fb => ?_, fun p => rfl,
    fun p => rfl, rfl, rfl⟩ <;>
    cases fb <;> rfl

/-- C9: the order-book fetch returns the first-level best bid and ask of
a well-formed response, and the defined all-zero snapshot in every
failure case — exception, missing `"bids"`/`"asks"` key, or an empty
level list — never propagating an error. -/
theorem orderbook_fallback :
    (∀ (bp bq ap aq : ℚ) (rb ra : List (ℚ × ℚ)),
      get_coinbase_orderbook (.ok (some ((bp, bq) :: rb), some ((ap, aq) :: ra))) =
        (bp, bq, ap, aq)) ∧
    get_coinbase_orderbook (.error ()) = SEND_ORDERBOOK_FALLBACK_ZERO ∧
    (∀ a : Option (List (ℚ × ℚ)),
      get_coinbase_orderbook (.ok (none, a)) = SEND_ORDERBOOK_FALLBACK_ZERO) ∧
    (∀ b : Option (List (ℚ × ℚ)),
      get_coinbase_orderbook (.ok (b, none)) = SEND_ORDERBOOK_FALLBACK_ZERO) ∧
    (∀ a : Option (List (ℚ × ℚ)),
      get_coinbase_orderbook (.ok (some [], a)) = SEND_ORDERBOOK_FALLBACK_ZERO) ∧
    (∀ (l : ℚ × ℚ) (rb : List (ℚ × ℚ)),
      get_coinbase_orderbook (.ok (some (l :: rb), some [])) =
        SEND_ORDERBOOK_FALLBACK_ZERO) := by
  refine ⟨fun bp bq ap aq rb ra => rfl, rfl, fun a => ?_, fun b => ?_,
    fun a => ?_, fun l rb => rfl⟩
  · cases a with
    | none => rfl
    | some l => cases l <;> rfl
  · cases b with
    | none => rfl
    | some l => cases l with
      | nil => rfl
      | cons h t => cases h; rfl
  · cases a with
    | none => rfl
    | some l => cases l <;> rfl

lemma sma_val_eq (xs : List ℚ) :
    sma_val xs =
      if xs.length < 20 then none
      else some ((xs.drop (xs.length - 20)).sum / 20) := by
  rcases xs with _ | ⟨x, t⟩
  · simp [sma_val, rollingMean]
  · have h0 : 0 < (x :: t).length := by simp
    unfold sma_val rollingMean
    rw [List.length_map, getLast?_range_map _ _ h0, join_some,
      rollingAt_map_some 20 _ h0]
    norm_num

/-- C5 counterexample: the claim places the RSI definedness threshold at
14 points, but `Series.diff()` consumes one point (its index 0 is NaN),
so a 14-point series has only 13 defined deltas and the 14-wide rolling
mean at the last index is NaN: the RSI of a 14-point strictly increasing
series is absent. -/
theorem rsi_14_points_counterexample :
    ([1, 2, 3, 4, 5, 6, 7, 8, 9, 10, 11, 12, 13, 14] : List ℚ).length = 14 ∧
      rsi_val [1, 2, 3, 4, 5, 6, 7, 8, 9, 10, 11, 12, 13, 14] = none := by
  refine ⟨rfl, ?_⟩
  norm_num [rsi_val, calc_rsi, rollingMean, rollingAt, diff, deltas,
    clip_lower0, clip_upper0_neg, rsi_point, List.range_succ, max_def]

/-- C5 (amended): the 20-point moving average of the last point is
defined exactly when the series has at least 20 points; the 14-period RSI
of the last point is defined exactly when the series has at least 15
points (14 defined deltas) AND the last 14 deltas are not all zero (a
flat window makes the rolling up- and down-means both zero and the ratio
0/0 = NaN). -/
theorem indicator_definedness (xs : List ℚ) :
    ((sma_val xs).isSome = true ↔ 20 ≤ xs.length) ∧
    ((rsi_val xs).isSome = true ↔
      15 ≤ xs.length ∧ ¬ ∀ d ∈ (deltas xs).drop (xs.length - 15), d = 0) := by
  constructor
  · rw [sma_val_eq]
    by_cases hc : xs.length < 20
    · rw [if_pos hc]
      simp
      omega
    · rw [if_neg hc]
      simp
      omega
  · by_cases h15 : 15 ≤ xs.length
    · rw [rsi_val_long xs h15]
      have hu := clip_sum_eq_zero_iff clip_lower0 clip_lower0_nonneg
        ((deltas xs).drop (xs.length - 15))
      have hd := clip_sum_eq_zero_iff clip_upper0_neg clip_upper0_neg_nonneg
        ((deltas xs).drop (xs.length - 15))
      simp only [rsi_point]
      by_cases hdz :
          (((deltas xs).drop (xs.length - 15)).map clip_upper0_neg).sum / 14 = 0
      · rw [if_pos hdz]
        by_cases huz :
            (((deltas xs).drop (xs.length - 15)).map clip_lower0).sum / 14 = 0
        · rw [if_pos huz]
          simp only [Option.isSome_none, Bool.false_eq_true, false_iff]
          rintro ⟨-, hne⟩
          apply hne
          intro d hd'
          have h1 := (hu.mp huz) d hd'
          have h2 := (hd.mp hdz) d hd'
          rw [clip_lower0_eq_zero_iff] at h1
          rw [clip_upper0_neg_eq_zero_iff] at h2
          linarith
        · rw [if_neg huz]
          simp only [Option.isSome_some, true_iff]
          refine ⟨h15, fun hall => huz (hu.mpr fun d hd' => ?_)⟩
          rw [clip_lower0_eq_zero_iff, hall d hd']
      · rw [if_neg hdz]
        simp only [Option.isSome_some, true_iff]
        refine ⟨h15, fun hall => hdz (hd.mpr fun d hd' => ?_)⟩
        rw [clip_upper0_neg_eq_zero_iff, hall d hd']
    · rw [rsi_val_short xs (by omega)]
      simp [h15]

/-- C5 amended witness: a strictly increasing 15-point series has a
defined RSI. -/
theorem indicator_definedness_witness :
    (rsi_val [1, 2, 3, 4, 5, 6, 7, 8, 9, 10, 11, 12, 13, 14, 15]).isSome = true :=
  (indicator_definedness [1, 2, 3, 4, 5, 6, 7, 8, 9, 10, 11, 12, 13, 14, 15]).2.mpr
    ⟨by norm_num, fun hall => by
      have h1 : (1 : ℚ) = 0 := hall 1 (by norm_num [deltas])
      norm_num at h1⟩

/-- C6: when the RSI is defined and the last 14 deltas are all
non-negative with at least one positive, the down-clip rolling mean is
zero while the up-clip rolling mean is positive, and the limiting
behaviour of `100 - 100 / (1 + u / 0)` makes the final RSI exactly
100. -/
theorem rsi_saturation (xs : List ℚ)
    (hdef : (rsi_val xs).isSome = true)
    (hnn : ∀ d ∈ (deltas xs).drop (xs.length - 15), 0 ≤ d)
    (hpos : ∃ d ∈ (deltas xs).drop (xs.length - 15), 0 < d) :
    rsi_val xs = some 100 := by
  have h15 : 15 ≤ xs.length := by
    by_contra hlt
    rw [rsi_val_short xs (by omega)] at hdef
    simp at hdef
  rw [rsi_val_long xs h15]
  have hdz :
      (((deltas xs).drop (xs.length - 15)).map clip_upper0_neg).sum / 14 = 0 := by
    apply (clip_sum_eq_zero_iff _ clip_upper0_neg_nonneg _).mpr
    intro d hd
    rw [clip_upper0_neg_eq_zero_iff]
    exact hnn d hd
  have huz :
      (((deltas xs).drop (xs.length - 15)).map clip_lower0).sum / 14 ≠ 0 := by
    rcases hpos with ⟨d0, hd0, hd0pos⟩
    intro h0
    have hz := (clip_sum_eq_zero_iff _ clip_lower0_nonneg _).mp h0 d0 hd0
    rw [clip_lower0_eq_zero_iff] at hz
    linarith
  simp only [rsi_point]
  rw [if_pos hdz, if_neg huz]

/-- C6 witness: the strictly increasing 15-point series `1..15` has RSI
exactly 100. -/
theorem rsi_saturation_witness :
    rsi_val [1, 2, 3, 4, 5, 6, 7, 8, 9, 10, 11, 12, 13, 14, 15] = some 100 :=
  rsi_saturation [1, 2, 3, 4, 5, 6, 7, 8, 9, 10, 11, 12, 13, 14, 15]
    (by norm_num [rsi_val, calc_rsi, rollingMean, rollingAt, diff, deltas,
      clip_lower0, clip_upper0_neg, rsi_point, List.range_succ, max_def])
    (by norm_num [deltas])
    ⟨1, by norm_num [deltas], by norm_num⟩

lemma foldl_min_le (l : List ℚ) : ∀ a : ℚ, l.foldl min a ≤ a ∧ ∀ y ∈ l, l.foldl min a ≤ y := by
  induction l with
  | nil =>
    intro a
    exact ⟨le_refl a, by simp⟩
  | cons x t ih =>
    intro a
    simp only [List.foldl_cons]
    rcases ih (min a x) with ⟨h1, h2⟩
    refine ⟨le_trans h1 (min_le_left _ _), ?_⟩
    intro y hy
    rcases List.mem_cons.mp hy with rfl | hy'
    · exact le_trans h1 (min_le_right _ _)
    · exact h2 y hy'

lemma foldl_min_mem (l : List ℚ) : ∀ a : ℚ, l.foldl min a = a ∨ l.foldl min a ∈ l := by
  induction l with
  | nil =>
    intro a
    exact Or.inl rfl
  | cons x t ih =>
    intro a
    simp only [List.foldl_cons]
    rcases ih (min a x) with h | h
    · rw [h]
      rcases le_total a x with hax | hxa
      · exact Or.inl (min_eq_left hax)
      · right
        rw [min_eq_right hxa]
        exact List.mem_cons_self x t
    · exact Or.inr (List.mem_cons_of_mem x h)

lemma foldl_max_le (l : List ℚ) : ∀ a : ℚ, a ≤ l.foldl max a ∧ ∀ y ∈ l, y ≤ l.foldl max a := by
  induction l with
  | nil =>
    intro a
    exact ⟨le_refl a, by simp⟩
  | cons x t ih =>
    intro a
    simp only [List.foldl_cons]
    rcases ih (max a x) with ⟨h1, h2⟩
    refine ⟨le_trans (le_max_left _ _) h1, ?_⟩
    intro y hy
    rcases List.mem_cons.mp hy with rfl | hy'
    · exact le_trans (le_max_right _ _) h1
    · exact h2 y hy'

lemma foldl_max_mem (l : List ℚ) : ∀ a : ℚ, l.foldl max a = a ∨ l.foldl max a ∈ l := by
  induction l with
  | nil =>
    intro a
    exact Or.inl rfl
  | cons x t ih =>
    intro a
    simp only [List.foldl_cons]
    rcases ih (max a x) with h | h
    · rw [h]
      rcases le_total x a with hxa | hax
      · exact Or.inl (max_eq_left hxa)
      · right
        rw [max_eq_right hax]
        exact List.mem_cons_self x t
    · exact Or.inr (List.mem_cons_of_mem x h)

lemma round_half_even_close (s : ℚ) : |(round_half_even s : ℚ) - s| ≤ 1 / 2 := by
  unfold round_half_even
  have hfl : (⌊s⌋ : ℚ) ≤ s := Int.floor_le s
  have hfu : s < ⌊s⌋ + 1 := Int.lt_floor_add_one s
  by_cases h1 : s - ⌊s⌋ < 1 / 2
  · rw [if_pos h1, abs_le]
    constructor <;> linarith
  · rw [if_neg h1]
    by_cases h2 : 1 / 2 < s - ⌊s⌋
    · rw [if_pos h2, abs_le]
      push_cast
      constructor <;> linarith
    · rw [if_neg h2]
      have h3 : s - ⌊s⌋ = 1 / 2 := by linarith
      by_cases h4 : ⌊s⌋ % 2 = 0
      · rw [if_pos h4, abs_le]
        constructor <;> linarith
      · rw [if_neg h4, abs_le]
        push_cast
        constructor <;> linarith

lemma round2_close (q : ℚ) : |round2 q - q| ≤ 1 / 200 := by
  unfold round2
  have h := round_half_even_close (q * 100)
  rw [abs_le] at h ⊢
  have hq : (round_half_even (q * 100) : ℚ) / 100 - q =
      ((round_half_even (q * 100) : ℚ) - q * 100) / 100 := by
    ring
  constructor <;> rw [hq] <;> linarith

/-- C7: the suggested levels are absent exactly on the empty series; on a
non-empty series the buy level is `round2` of the series minimum times
1.02 and the sell level is `round2` of the series maximum times 0.98,
where `round2` rounds to an exact multiple of 1/100 (two decimal places)
at distance at most 1/200 from its argument. -/
theorem suggested_levels (xs : List ℚ) :
    (buy_price xs = none ↔ xs = []) ∧
    (sell_price xs = none ↔ xs = []) ∧
    (∀ m, series_min xs = some m →
      m ∈ xs ∧ (∀ y ∈ xs, m ≤ y) ∧
        buy_price xs = some (round2 (m * (102 / 100)))) ∧
    (∀ M, series_max xs = some M →
      M ∈ xs ∧ (∀ y ∈ xs, y ≤ M) ∧
        sell_price xs = some (round2 (M * (98 / 100)))) ∧
    (∀ q : ℚ, (∃ n : ℤ, round2 q = (n : ℚ) / 100) ∧ |round2 q - q| ≤ 1 / 200) := by
  refine ⟨?_, ?_, ?_, ?_, fun q => ⟨⟨round_half_even (q * 100), rfl⟩, round2_close q⟩⟩
  · rcases xs with _ | ⟨x, t⟩ <;> simp [buy_price, series_min]
  · rcases xs with _ | ⟨x, t⟩ <;> simp [sell_price, series_max]
  · intro m hm
    rcases xs with _ | ⟨x, t⟩
    · simp [series_min] at hm
    · simp only [series_min, Option.some.injEq] at hm
      subst hm
      refine ⟨?_, ?_, ?_⟩
      · rcases foldl_min_mem t x with h | h
        · rw [h]
          exact List.mem_cons_self x t
        · exact List.mem_cons_of_mem x h
      · intro y hy
        rcases List.mem_cons.mp hy with rfl | hy'
        · exact (foldl_min_le t y).1
        · exact (foldl_min_le t x).2 y hy'
      · rfl
  · intro M hM
    rcases xs with _ | ⟨x, t⟩
    · simp [series_max] at hM
    · simp only [series_max, Option.some.injEq] at hM
      subst hM
      refine ⟨?_, ?_, ?_⟩
      · rcases foldl_max_mem t x with h | h
        · rw [h]
          exact List.mem_cons_self x t
        · exact List.mem_cons_of_mem x h
      · intro y hy
        rcases List.mem_cons.mp hy with rfl | hy'
        · exact (foldl_max_le t y).1
        · exact (foldl_max_le t x).2 y hy'
      · rfl

/-- C7 witness: on the series `[3, 1, 2]` the minimum is 1 and the buy
level is `round2 (1 * 1.02) = 1.02`. -/
theorem suggested_levels_witness :
    buy_price [3, 1, 2] = some (round2 (1 * (102 / 100))) ∧
      round2 (1 * (102 / 100)) = 51 / 50 :=
  ⟨((suggested_levels [3, 1, 2]).2.2.1 1 (by norm_num [series_min])).2.2, by
    norm_num [round2, round_half_even]⟩

lemma sma_text_cases (sv pv : Option ℚ) :
    sma_text sv pv = MsgLine.smaND ∨ ∃ a v, sma_text sv pv = MsgLine.smaLine a v := by
  cases sv with
  | none => cases pv <;> exact Or.inl rfl
  | some s =>
    cases pv with
    | none => exact Or.inl rfl
    | some p => exact Or.inr ⟨_, _, rfl⟩

lemma rsi_text_cases (rv : Option ℚ) :
    rsi_text rv = MsgLine.rsiND ∨ ∃ v, rsi_text rv = MsgLine.rsiLine v := by
  cases rv with
  | none => exact Or.inl rfl
  | some v => exact Or.inr ⟨_, rfl⟩

/-- C8 counterexample: in a fully populated report the suggestion line's
buy and sell levels are interpolated with `{v:,}` (thousands separators
but no fixed two-decimal spec, main.py line 259), so not every currency
value in the message is rendered with exactly two decimal places. -/
theorem currency_format_counterexample :
    NumFmt.commaOnly ∈ msg_currency_fmts
      { label := "BTC", price := some 65000, bid_price := 64990, bid_qty := 1,
        ask_price := 65010, ask_qty := 2, buy_price := some 100,
        sell_price := some 200, sma_val := some 64000, rsi_val := some 55,
        news := "n" } := by
  norm_num [msg_currency_fmts, build_lines, currency_fmts, truthyO, truthyF,
    sma_text, rsi_text]

/-- C8 (amended): the message builder is total and never produces an
empty message; absent inputs take placeholder lines; the current price,
bid, ask and SMA are rendered with thousands separators and exactly two
decimals, while the suggested buy and sell levels — and only they — are
rendered with thousands separators but without the two-decimal format
spec. -/
theorem message_formats (r : Report) :
    build_lines r ≠ [] ∧
    (r.price = none → MsgLine.priceND ∈ build_lines r) ∧
    (r.sma_val = none → MsgLine.smaND ∈ build_lines r) ∧
    (∀ l ∈ build_lines r, ∀ fm ∈ currency_fmts l,
      fm = NumFmt.commaTwoDec ∨ ∃ b s, l = MsgLine.suggestLine b s) ∧
    (∀ b s, currency_fmts (MsgLine.suggestLine b s) =
      [NumFmt.commaOnly, NumFmt.commaOnly]) := by
  refine ⟨by simp [build_lines], ?_, ?_, ?_, fun b s => rfl⟩
  · intro h
    simp [build_lines, h]
  · intro h
    rcases hp : r.price with _ | p <;> simp [build_lines, h, hp, sma_text]
  · intro l hl fm hfm
    cases l with
    | priceLine p =>
      simp [currency_fmts] at hfm
      exact Or.inl hfm
    | bidLine bp bq =>
      simp [currency_fmts] at hfm
      exact Or.inl hfm
    | askLine ap aq =>
      simp [currency_fmts] at hfm
      exact Or.inl hfm
    | smaLine a v =>
      simp [currency_fmts] at hfm
      exact Or.inl hfm
    | suggestLine b s => exact Or.inr ⟨b, s, rfl⟩
    | header lab => simp [currency_fmts] at hfm
    | timeStamp => simp [currency_fmts] at hfm
    | blank => simp [currency_fmts] at hfm
    | priceND => simp [currency_fmts] at hfm
    | bidAskND => simp [currency_fmts] at hfm
    | suggestND => simp [currency_fmts] at hfm
    | smaND => simp [currency_fmts] at hfm
    | rsiLine v => simp [currency_fmts] at hfm
    | rsiND => simp [currency_fmts] at hfm
    | newsLine s => simp [currency_fmts] at hfm
    | disclaimer => simp [currency_fmts] at hfm

/-- C8 amended witness: a report with every input absent gets the price
placeholder line. -/
theorem message_formats_witness :
    MsgLine.priceND ∈ build_lines
      { label := "BTC", price := none, bid_price := 0, bid_qty := 0,
        ask_price := 0, ask_qty := 0, buy_price := none, sell_price := none,
        sma_val := none, rsi_val := none, news := "n" } :=
  (message_formats _).2.1 rfl

/-- C10: the builder tests bid/ask and the suggested levels for Python
truthiness before the positivity check, so a zero best-bid or best-ask
price — including a genuinely zero reading — yields the `Bid / Ask: N/D`
placeholder and no bid or ask value line, and a defined-but-zero buy or
sell level yields the `Sugerencia educativa: N/D` placeholder and no
suggestion value line. -/
theorem zero_as_absent (r : Report) :
    ((r.bid_price = 0 ∨ r.ask_price = 0) →
      MsgLine.bidAskND ∈ build_lines r ∧
      (∀ bp bq, MsgLine.bidLine bp bq ∉ build_lines r) ∧
      (∀ ap aq, MsgLine.askLine ap aq ∉ build_lines r)) ∧
    ((r.buy_price = some 0 ∨ r.sell_price = some 0) →
      MsgLine.suggestND ∈ build_lines r ∧
      (∀ b s, MsgLine.suggestLine b s ∉ build_lines r)) := by
  constructor
  · intro h
    have hcond : (truthyF r.bid_price && truthyF r.ask_price &&
        decide (r.bid_price > 0) && decide (r.ask_price > 0)) = false := by
      rcases h with h | h <;> simp [truthyF, h]
    refine ⟨by simp [build_lines, hcond], ?_, ?_⟩
    · intro bp bq hmem
      rcases hp : r.price with _ | p <;>
        rcases sma_text_cases r.sma_val r.price with hs | ⟨a, v, hs⟩ <;>
        rcases rsi_text_cases r.rsi_val with hr | ⟨v2, hr⟩ <;>
        by_cases hbs : (truthyO r.buy_price && truthyO r.sell_price) = true <;>
        rw [hp] at hs <;>
        simp [build_lines, hcond, hp, hs, hr, hbs] at hmem
    · intro ap aq hmem
      rcases hp : r.price with _ | p <;>
        rcases sma_text_cases r.sma_val r.price with hs | ⟨a, v, hs⟩ <;>
        rcases rsi_text_cases r.rsi_val with hr | ⟨v2, hr⟩ <;>
        by_cases hbs : (truthyO r.buy_price && truthyO r.sell_price) = true <;>
        rw [hp] at hs <;>
        simp [build_lines, hcond, hp, hs, hr, hbs] at hmem
  · intro h
    have hcond : (truthyO r.buy_price && truthyO r.sell_price) = false := by
      rcases h with h | h <;> simp [truthyO, truthyF, h]
    refine ⟨by simp [build_lines, hcond], ?_⟩
    intro b s hmem
    rcases hp : r.price with _ | p <;>
      rcases sma_text_cases r.sma_val r.price with hs | ⟨a, v, hs⟩ <;>
      rcases rsi_text_cases r.rsi_val with hr | ⟨v2, hr⟩ <;>
      by_cases hbid : (truthyF r.bid_price && truthyF r.ask_price &&
        decide (r.bid_price > 0) && decide (r.ask_price > 0)) = true <;>
      rw [hp] at hs <;>
      simp [build_lines, hcond, hp, hs, hr, hbid] at hmem

/-- C10 witness: a report with a zero best bid and a defined-but-zero buy
level gets both placeholder lines. -/
theorem zero_as_absent_witness :
    MsgLine.bidAskND ∈ build_lines
      { label := "BTC", price := some 100, bid_price := 0, bid_qty := 0,
        ask_price := 50, ask_qty := 1, buy_price := some 0,
        sell_price := some 90, sma_val := none, rsi_val := none,
        news := "n" } ∧
    MsgLine.suggestND ∈ build_lines
      { label := "BTC", price := some 100, bid_price := 0, bid_qty := 0,
        ask_price := 50, ask_qty := 1, buy_price := some 0,
        sell_price := some 90, sma_val := none, rsi_val := none,
        news := "n" } :=
  ⟨((zero_as_absent _).1 (Or.inl rfl)).1, ((zero_as_absent _).2 (Or.inl rfl)).1⟩

end CryptoBot
